import Mathlib

/-!
Shallow embedding of the shape library in src/chernov.arseniy/P5/main.cpp.
Doubles are modelled as rationals; the constant PI = acos(-1.0) used by
Bubble.getArea is an abstract parameter (pi) of the area function.
Throwing std::invalid_argument is modelled by Except String.
-/

namespace chernov

structure point_t where
  x : ℚ
  y : ℚ
deriving DecidableEq, Repr

structure rectangle_t where
  width : ℚ
  height : ℚ
  pos : point_t
deriving DecidableEq, Repr

/-- The closed set of shape variants of the source: Rectangle, Polygon, Bubble,
each carrying exactly the data members of the corresponding C++ class. -/
inductive Shape where
  | Rectangle (side_x side_y : ℚ) (center : point_t)
  | Polygon (verts : List point_t) (center : point_t)
  | Bubble (radius : ℚ) (center anchor : point_t)
deriving DecidableEq, Repr

/-- Cross term of the shoelace accumulation: a.x * b.y - a.y * b.x. -/
def cross (a b : point_t) : ℚ := a.x * b.y - a.y * b.x

/-- Polygon::getSignedArea: loop over i, accumulating
verts[i].x * verts[(i+1)%count].y - verts[i].y * verts[(i+1)%count].x,
then multiplied by 0.5. -/
def getSignedArea (vs : List point_t) : ℚ :=
  (∑ i ∈ Finset.range vs.length,
    cross (vs.getD i ⟨0, 0⟩) (vs.getD ((i + 1) % vs.length) ⟨0, 0⟩)) * (1 / 2)

/-- Polygon::getCentroid: weighted cross-term sums, each divided by
6 * signed area (division by zero is total in ℚ, yielding 0). -/
def getCentroid (vs : List point_t) : point_t :=
  let n := vs.length
  let cx := ∑ i ∈ Finset.range n,
    ((vs.getD i ⟨0, 0⟩).x + (vs.getD ((i + 1) % n) ⟨0, 0⟩).x) *
      cross (vs.getD i ⟨0, 0⟩) (vs.getD ((i + 1) % n) ⟨0, 0⟩)
  let cy := ∑ i ∈ Finset.range n,
    ((vs.getD i ⟨0, 0⟩).y + (vs.getD ((i + 1) % n) ⟨0, 0⟩).y) *
      cross (vs.getD i ⟨0, 0⟩) (vs.getD ((i + 1) % n) ⟨0, 0⟩)
  let signed_area := getSignedArea vs
  ⟨cx / (6 * signed_area), cy / (6 * signed_area)⟩

/-- Fold computing a running minimum of key v over a list, as the frame loops do. -/
def foldMin {α : Type} (key : α → ℚ) (l : List α) (i : ℚ) : ℚ :=
  l.foldl (fun m v => min m (key v)) i

/-- Fold computing a running maximum of key v over a list. -/
def foldMax {α : Type} (key : α → ℚ) (l : List α) (i : ℚ) : ℚ :=
  l.foldl (fun m v => max m (key v)) i

/-- Polygon::getFrameRect: min/max over all vertices starting from verts[0],
width = max - min, position = {min_x + width/2, min_y + height/2}. -/
def polyFrame (vs : List point_t) : rectangle_t :=
  let v0 := vs.getD 0 ⟨0, 0⟩
  let min_x := foldMin (fun v => v.x) vs v0.x
  let min_y := foldMin (fun v => v.y) vs v0.y
  let max_x := foldMax (fun v => v.x) vs v0.x
  let max_y := foldMax (fun v => v.y) vs v0.y
  ⟨max_x - min_x, max_y - min_y,
    ⟨min_x + (max_x - min_x) / 2, min_y + (max_y - min_y) / 2⟩⟩

/-- Shape::getArea, dispatched over the three variants.  pi stands for the
constant PI = acos(-1.0) of Bubble::getArea. -/
def getArea (pi : ℚ) : Shape → ℚ
  | .Rectangle a b _ => a * b
  | .Polygon vs _ => |getSignedArea vs|
  | .Bubble r _ _ => pi * r * r

/-- Shape::getFrameRect, dispatched over the three variants. -/
def getFrameRect : Shape → rectangle_t
  | .Rectangle a b c => ⟨a, b, c⟩
  | .Polygon vs _ => polyFrame vs
  | .Bubble r c _ => ⟨2 * r, 2 * r, c⟩

/-- Translation of a point by a delta, as in the move(dx, dy) loops. -/
def translate (dx dy : ℚ) (v : point_t) : point_t := ⟨v.x + dx, v.y + dy⟩

/-- The map p + k * (v - p) applied componentwise, as in Polygon::scale
(about the cached center) and Bubble::scale (about the anchor). -/
def affine (p : point_t) (k : ℚ) (v : point_t) : point_t :=
  ⟨p.x + k * (v.x - p.x), p.y + k * (v.y - p.y)⟩

/-- Shape::move(double dx, double dy). -/
def moveDelta : Shape → ℚ → ℚ → Shape
  | .Rectangle a b c, dx, dy => .Rectangle a b ⟨c.x + dx, c.y + dy⟩
  | .Polygon vs c, dx, dy => .Polygon (vs.map (translate dx dy)) ⟨c.x + dx, c.y + dy⟩
  | .Bubble r c a, dx, dy => .Bubble r ⟨c.x + dx, c.y + dy⟩ ⟨a.x + dx, a.y + dy⟩

/-- Shape::move(point_t p): Rectangle sets its center directly; Polygon and
Bubble compute the delta from their reference point and delegate. -/
def movePoint (s : Shape) (p : point_t) : Shape :=
  match s with
  | .Rectangle a b _ => .Rectangle a b p
  | .Polygon vs c => moveDelta (.Polygon vs c) (p.x - c.x) (p.y - c.y)
  | .Bubble r c a => moveDelta (.Bubble r c a) (p.x - a.x) (p.y - a.y)

/-- Shape::scale(double k). -/
def scaleS : Shape → ℚ → Shape
  | .Rectangle a b c, k => .Rectangle (a * k) (b * k) c
  | .Polygon vs c, k => .Polygon (vs.map (affine c k)) c
  | .Bubble r c a, k => .Bubble (r * k) (affine a k c) a

/-- The body of chernov::scaleByPoint for one shape: record the frame position,
move the shape to p, measure the displacement, undo it scaled by k, then scale. -/
def scaleShapeByPoint (k : ℚ) (p : point_t) (s : Shape) : Shape :=
  let first_pos := (getFrameRect s).pos
  let s1 := movePoint s p
  let second_pos := (getFrameRect s1).pos
  let s2 := moveDelta s1 (k * (first_pos.x - second_pos.x)) (k * (first_pos.y - second_pos.y))
  scaleS s2 k

/-- chernov::scaleByPoint: throws invalid_argument when k is not positive,
otherwise transforms every shape of the collection in order. -/
def scaleByPoint (shapes : List Shape) (k : ℚ) (p : point_t) : Except String (List Shape) :=
  if k ≤ 0 then Except.error "k must be positive"
  else Except.ok (shapes.map (scaleShapeByPoint k p))

/-- chernov::getTotalFrameRect: starts from shapes[0]'s frame (the C++ reads it
unconditionally, so the empty case below is outside the function's precondition)
and folds min/max of the frame extents over the rest. -/
def getTotalFrameRect : List Shape → rectangle_t
  | [] => ⟨0, 0, ⟨0, 0⟩⟩
  | s :: rest =>
    let frame := getFrameRect s
    let min_x := foldMin (fun t => (getFrameRect t).pos.x - (getFrameRect t).width / 2) rest
      (frame.pos.x - frame.width / 2)
    let min_y := foldMin (fun t => (getFrameRect t).pos.y - (getFrameRect t).height / 2) rest
      (frame.pos.y - frame.height / 2)
    let max_x := foldMax (fun t => (getFrameRect t).pos.x + (getFrameRect t).width / 2) rest
      (frame.pos.x - frame.width / 2 + frame.width)
    let max_y := foldMax (fun t => (getFrameRect t).pos.y + (getFrameRect t).height / 2) rest
      (frame.pos.y - frame.height / 2 + frame.height)
    ⟨max_x - min_x, max_y - min_y,
      ⟨min_x + (max_x - min_x) / 2, min_y + (max_y - min_y) / 2⟩⟩

/-- Rectangle::Rectangle(a, b, o): throws when a side is not positive. -/
def mkRectangle (a b : ℚ) (o : point_t) : Except String Shape :=
  if a ≤ 0 ∨ b ≤ 0 then Except.error "the side must be greater than 0"
  else Except.ok (.Rectangle a b o)

/-- Polygon::Polygon(points, size): throws when the vertex count is below 3,
then caches the centroid as the center. -/
def mkPolygon (pts : List point_t) : Except String Shape :=
  if pts.length < 3 then Except.error "the count must not be less than 3"
  else Except.ok (.Polygon pts (getCentroid pts))

/-- Bubble::Bubble(r, o, a): the three validity checks in source order:
containment of the anchor, anchor distinct from center, positive radius. -/
def mkBubble (r : ℚ) (o a : point_t) : Except String Shape :=
  if (o.x - a.x) * (o.x - a.x) + (o.y - a.y) * (o.y - a.y) > r * r then
    Except.error "the anchor must be inside the circle"
  else if o.x = a.x ∧ o.y = a.y then
    Except.error "the anchor must not be equal to the center"
  else if r ≤ 0 then
    Except.error "the radius must be greater than 0"
  else Except.ok (.Bubble r o a)

/-- A shape value obtainable from one of the three validated constructors. -/
def validCtor (s : Shape) : Prop :=
  (∃ a b o, mkRectangle a b o = Except.ok s) ∨
  (∃ pts, mkPolygon pts = Except.ok s) ∨
  (∃ r o a, mkBubble r o a = Except.ok s)

/-- One step of the mutating interface of Shape. -/
inductive Mutation where
  | moveTo (p : point_t)
  | moveBy (dx dy : ℚ)
  | scale (k : ℚ)
deriving DecidableEq, Repr

def applyMut (s : Shape) (m : Mutation) : Shape :=
  match m with
  | .moveTo p => movePoint s p
  | .moveBy dx dy => moveDelta s dx dy
  | .scale k => scaleS s k

def applyMuts (s : Shape) (ms : List Mutation) : Shape := ms.foldl applyMut s

/-- The scale factor of a scale step is positive. -/
def posScale : Mutation → Prop
  | .scale k => 0 < k
  | _ => True

/-- The structural invariant established by the validated constructors:
positive rectangle sides, at least three polygon vertices, positive radius. -/
def WF : Shape → Prop
  | .Rectangle a b _ => 0 < a ∧ 0 < b
  | .Polygon vs _ => 3 ≤ vs.length
  | .Bubble r _ _ => 0 < r

/-- The reference point of a shape: the center for Rectangle and Polygon,
the anchor for Bubble. -/
def refPoint : Shape → point_t
  | .Rectangle _ _ c => c
  | .Polygon _ c => c
  | .Bubble _ _ a => a

/-- The anchor of a Bubble, when the shape is one. -/
def anchorOf : Shape → Option point_t
  | .Bubble _ _ a => some a
  | _ => none

/-- The constructor invariant of Bubble, as checked by Bubble::Bubble. -/
def BWF : Shape → Prop
  | .Bubble r c a =>
      (c.x - a.x) * (c.x - a.x) + (c.y - a.y) * (c.y - a.y) ≤ r * r ∧
      ¬(c.x = a.x ∧ c.y = a.y) ∧ 0 < r
  | _ => False

def leftR (f : rectangle_t) : ℚ := f.pos.x - f.width / 2
def rightR (f : rectangle_t) : ℚ := f.pos.x + f.width / 2
def botR (f : rectangle_t) : ℚ := f.pos.y - f.height / 2
def topR (f : rectangle_t) : ℚ := f.pos.y + f.height / 2

/-- The outer rectangle encloses the inner one, extent-wise. -/
def encloses (o i : rectangle_t) : Prop :=
  leftR o ≤ leftR i ∧ rightR i ≤ rightR o ∧ botR o ≤ botR i ∧ topR i ≤ topR o

/-- Cyclic left rotation of a vertex list by one, pairing each vertex with its
successor modulo the count. -/
def rotate1 : List point_t → List point_t
  | [] => []
  | a :: rest => rest ++ [a]

/-- Componentwise multiplication of a point by a scalar. -/
def smulP (k : ℚ) (v : point_t) : point_t := ⟨k * v.x, k * v.y⟩

lemma rotate1_length (l : List point_t) : (rotate1 l).length = l.length := by
  cases l <;> simp [rotate1]

lemma rotate1_map (f : point_t → point_t) (l : List point_t) :
    rotate1 (l.map f) = (rotate1 l).map f := by
  cases l <;> simp [rotate1]

lemma sum_map_rotate1 (key : point_t → ℚ) (l : List point_t) :
    ((rotate1 l).map key).sum = (l.map key).sum := by
  cases l with
  | nil => rfl
  | cons a rest => simp [rotate1]; ring

lemma sum_range_zip (g : point_t → point_t → ℚ) :
    ∀ (a b : List point_t), a.length = b.length →
      ∑ i ∈ Finset.range a.length, g (a.getD i ⟨0, 0⟩) (b.getD i ⟨0, 0⟩)
        = (List.zipWith g a b).sum := by
  intro a
  induction a with
  | nil => intro b _; simp
  | cons u a ih =>
    intro b hb
    cases b with
    | nil => simp at hb
    | cons v b =>
      simp only [List.length_cons] at hb ⊢
      rw [Finset.sum_range_succ']
      simp only [List.getD_cons_succ, List.getD_cons_zero, List.zipWith_cons_cons,
        List.sum_cons]
      rw [ih b (Nat.succ_injective hb)]
      ring

lemma getD_rotate1 (l : List point_t) (i : ℕ) (hi : i < l.length) :
    l.getD ((i + 1) % l.length) ⟨0, 0⟩ = (rotate1 l).getD i ⟨0, 0⟩ := by
  cases l with
  | nil => simp at hi
  | cons u t =>
    simp only [rotate1, List.length_cons] at hi ⊢
    rcases lt_or_eq_of_le (Nat.lt_succ_iff.mp hi) with h | h
    · rw [Nat.mod_eq_of_lt (by omega)]
      rw [List.getD_cons_succ, List.getD_eq_getElem?_getD, List.getD_eq_getElem?_getD,
        List.getElem?_append_left h]
    · subst h
      rw [Nat.mod_self, List.getD_cons_zero, List.getD_eq_getElem?_getD,
        List.getElem?_append_right (le_refl _)]
      simp

lemma signedArea_zip (l : List point_t) :
    getSignedArea l = (List.zipWith cross l (rotate1 l)).sum * (1 / 2) := by
  unfold getSignedArea
  congr 1
  rw [Finset.sum_congr rfl fun i hi => by
    rw [getD_rotate1 l i (Finset.mem_range.mp hi)]]
  exact sum_range_zip cross l (rotate1 l) (rotate1_length l).symm

lemma zip_cross_translate (dx dy : ℚ) :
    ∀ (a b : List point_t), a.length = b.length →
      (List.zipWith cross (a.map (translate dx dy)) (b.map (translate dx dy))).sum
        = (List.zipWith cross a b).sum
          + dy * ((a.map fun v => v.x).sum - (b.map fun v => v.x).sum)
          + dx * ((b.map fun v => v.y).sum - (a.map fun v => v.y).sum) := by
  intro a
  induction a with
  | nil => intro b hb; cases b with
    | nil => simp
    | cons v b => simp at hb
  | cons u a ih =>
    intro b hb
    cases b with
    | nil => simp at hb
    | cons v b =>
      simp only [List.length_cons] at hb
      simp only [List.map_cons, List.zipWith_cons_cons, List.sum_cons]
      rw [ih b (Nat.succ_injective hb)]
      simp only [cross, translate]
      ring

lemma signedArea_translate (dx dy : ℚ) (l : List point_t) :
    getSignedArea (l.map (translate dx dy)) = getSignedArea l := by
  rw [signedArea_zip, signedArea_zip, rotate1_map,
    zip_cross_translate dx dy l (rotate1 l) (rotate1_length l).symm,
    sum_map_rotate1, sum_map_rotate1]
  ring

lemma zip_cross_smul (k : ℚ) :
    ∀ (a b : List point_t),
      (List.zipWith cross (a.map (smulP k)) (b.map (smulP k))).sum
        = k ^ 2 * (List.zipWith cross a b).sum := by
  intro a
  induction a with
  | nil => intro b; simp
  | cons u a ih =>
    intro b
    cases b with
    | nil => simp
    | cons v b =>
      simp only [List.map_cons, List.zipWith_cons_cons, List.sum_cons]
      rw [ih b]
      simp only [cross, smulP]
      ring

lemma signedArea_smul (k : ℚ) (l : List point_t) :
    getSignedArea (l.map (smulP k)) = k ^ 2 * getSignedArea l := by
  rw [signedArea_zip, signedArea_zip, rotate1_map, zip_cross_smul]
  ring

lemma affine_decomp (c : point_t) (k : ℚ) (v : point_t) :
    affine c k v = translate c.x c.y (smulP k (translate (-c.x) (-c.y) v)) := by
  simp only [affine, translate, smulP, point_t.mk.injEq]
  constructor <;> ring

lemma signedArea_affine (c : point_t) (k : ℚ) (l : List point_t) :
    getSignedArea (l.map (affine c k)) = k ^ 2 * getSignedArea l := by
  have hfun : ((translate c.x c.y ∘ smulP k) ∘ translate (-c.x) (-c.y)) = affine c k :=
    funext fun v => (affine_decomp c k v).symm
  rw [show l.map (affine c k)
      = ((l.map (translate (-c.x) (-c.y))).map (smulP k)).map (translate c.x c.y) by
    rw [List.map_map, List.map_map, hfun]]
  rw [signedArea_translate, signedArea_smul, signedArea_translate]

lemma foldMin_le_init {α : Type} (key : α → ℚ) :
    ∀ (l : List α) (i : ℚ), foldMin key l i ≤ i := by
  intro l
  induction l with
  | nil => intro i; exact le_refl i
  | cons u l ih =>
    intro i
    exact le_trans (ih (min i (key u))) (min_le_left _ _)

lemma foldMin_le_mem {α : Type} (key : α → ℚ) :
    ∀ (l : List α) (i : ℚ) (v : α), v ∈ l → foldMin key l i ≤ key v := by
  intro l
  induction l with
  | nil => intro i v hv; simp at hv
  | cons u l ih =>
    intro i v hv
    rcases List.mem_cons.mp hv with h | h
    · subst h
      exact le_trans (foldMin_le_init key l (min i (key v))) (min_le_right _ _)
    · exact ih (min i (key u)) v h

lemma le_foldMin {α : Type} (key : α → ℚ) :
    ∀ (l : List α) (i b : ℚ), b ≤ i → (∀ v ∈ l, b ≤ key v) → b ≤ foldMin key l i := by
  intro l
  induction l with
  | nil => intro i b hi _; exact hi
  | cons u l ih =>
    intro i b hi hmem
    exact ih (min i (key u)) b (le_min hi (hmem u (List.mem_cons_self u l)))
      fun v hv => hmem v (List.mem_cons_of_mem u hv)

lemma init_le_foldMax {α : Type} (key : α → ℚ) :
    ∀ (l : List α) (i : ℚ), i ≤ foldMax key l i := by
  intro l
  induction l with
  | nil => intro i; exact le_refl i
  | cons u l ih =>
    intro i
    exact le_trans (le_max_left _ _) (ih (max i (key u)))

lemma mem_le_foldMax {α : Type} (key : α → ℚ) :
    ∀ (l : List α) (i : ℚ) (v : α), v ∈ l → key v ≤ foldMax key l i := by
  intro l
  induction l with
  | nil => intro i v hv; simp at hv
  | cons u l ih =>
    intro i v hv
    rcases List.mem_cons.mp hv with h | h
    · subst h
      exact le_trans (le_max_right _ _) (init_le_foldMax key l (max i (key v)))
    · exact ih (max i (key u)) v h

lemma foldMax_le {α : Type} (key : α → ℚ) :
    ∀ (l : List α) (i b : ℚ), i ≤ b → (∀ v ∈ l, key v ≤ b) → foldMax key l i ≤ b := by
  intro l
  induction l with
  | nil => intro i b hi _; exact hi
  | cons u l ih =>
    intro i b hi hmem
    exact ih (max i (key u)) b (max_le hi (hmem u (List.mem_cons_self u l)))
      fun v hv => hmem v (List.mem_cons_of_mem u hv)

lemma foldMin_le_foldMax {α : Type} (key : α → ℚ) (l : List α) (i : ℚ) :
    foldMin key l i ≤ foldMax key l i :=
  le_trans (foldMin_le_init key l i) (init_le_foldMax key l i)

lemma foldMin_map {α : Type} (key : α → ℚ) (h : α → α) (f : ℚ → ℚ)
    (hf : ∀ a b, f (min a b) = min (f a) (f b)) (hk : ∀ v, key (h v) = f (key v)) :
    ∀ (l : List α) (i : ℚ), foldMin key (l.map h) (f i) = f (foldMin key l i) := by
  intro l
  induction l with
  | nil => intro i; rfl
  | cons u l ih =>
    intro i
    show foldMin key (l.map h) (min (f i) (key (h u))) = f (foldMin key l (min i (key u)))
    rw [hk u, ← hf, ih]

lemma foldMax_map {α : Type} (key : α → ℚ) (h : α → α) (f : ℚ → ℚ)
    (hf : ∀ a b, f (max a b) = max (f a) (f b)) (hk : ∀ v, key (h v) = f (key v)) :
    ∀ (l : List α) (i : ℚ), foldMax key (l.map h) (f i) = f (foldMax key l i) := by
  intro l
  induction l with
  | nil => intro i; rfl
  | cons u l ih =>
    intro i
    show foldMax key (l.map h) (max (f i) (key (h u))) = f (foldMax key l (max i (key u)))
    rw [hk u, ← hf, ih]

lemma add_min (a b c : ℚ) : min a b + c = min (a + c) (b + c) := by
  rcases le_total a b with h | h
  · rw [min_eq_left h, min_eq_left (by linarith)]
  · rw [min_eq_right h, min_eq_right (by linarith)]

lemma add_max (a b c : ℚ) : max a b + c = max (a + c) (b + c) := by
  rcases le_total a b with h | h
  · rw [max_eq_right h, max_eq_right (by linarith)]
  · rw [max_eq_left h, max_eq_left (by linarith)]

lemma aff_min (k : ℚ) (hk : 0 ≤ k) (p a b : ℚ) :
    p + k * (min a b - p) = min (p + k * (a - p)) (p + k * (b - p)) := by
  rcases le_total a b with h | h
  · rw [min_eq_left h, min_eq_left (by nlinarith)]
  · rw [min_eq_right h, min_eq_right (by nlinarith)]

lemma aff_max (k : ℚ) (hk : 0 ≤ k) (p a b : ℚ) :
    p + k * (max a b - p) = max (p + k * (a - p)) (p + k * (b - p)) := by
  rcases le_total a b with h | h
  · rw [max_eq_right h, max_eq_right (by nlinarith)]
  · rw [max_eq_left h, max_eq_left (by nlinarith)]

lemma getD_zero_map (f : point_t → point_t) (l : List point_t) (hl : l ≠ []) :
    (l.map f).getD 0 ⟨0, 0⟩ = f (l.getD 0 ⟨0, 0⟩) := by
  cases l with
  | nil => exact absurd rfl hl
  | cons u t => rfl

lemma polyFrame_translate (dx dy : ℚ) (vs : List point_t) (h : vs ≠ []) :
    polyFrame (vs.map (translate dx dy)) =
      ⟨(polyFrame vs).width, (polyFrame vs).height,
        ⟨(polyFrame vs).pos.x + dx, (polyFrame vs).pos.y + dy⟩⟩ := by
  have hminx := foldMin_map (fun v : point_t => v.x) (translate dx dy) (fun q => q + dx)
    (fun a b => add_min a b dx) (fun v => rfl) vs
  have hminy := foldMin_map (fun v : point_t => v.y) (translate dx dy) (fun q => q + dy)
    (fun a b => add_min a b dy) (fun v => rfl) vs
  have hmaxx := foldMax_map (fun v : point_t => v.x) (translate dx dy) (fun q => q + dx)
    (fun a b => add_max a b dx) (fun v => rfl) vs
  have hmaxy := foldMax_map (fun v : point_t => v.y) (translate dx dy) (fun q => q + dy)
    (fun a b => add_max a b dy) (fun v => rfl) vs
  simp only [polyFrame, getD_zero_map _ _ h]
  have e1 : (translate dx dy (vs.getD 0 ⟨0, 0⟩)).x = (vs.getD 0 ⟨0, 0⟩).x + dx := rfl
  have e2 : (translate dx dy (vs.getD 0 ⟨0, 0⟩)).y = (vs.getD 0 ⟨0, 0⟩).y + dy := rfl
  rw [e1, e2, hminx, hminy, hmaxx, hmaxy]
  simp only [rectangle_t.mk.injEq, point_t.mk.injEq]
  refine ⟨by ring, by ring, by ring, by ring⟩

lemma polyFrame_affine (p : point_t) (k : ℚ) (hk : 0 ≤ k) (vs : List point_t) (h : vs ≠ []) :
    polyFrame (vs.map (affine p k)) =
      ⟨k * (polyFrame vs).width, k * (polyFrame vs).height,
        affine p k (polyFrame vs).pos⟩ := by
  have hminx := foldMin_map (fun v : point_t => v.x) (affine p k)
    (fun q => p.x + k * (q - p.x)) (fun a b => aff_min k hk p.x a b) (fun v => rfl) vs
  have hminy := foldMin_map (fun v : point_t => v.y) (affine p k)
    (fun q => p.y + k * (q - p.y)) (fun a b => aff_min k hk p.y a b) (fun v => rfl) vs
  have hmaxx := foldMax_map (fun v : point_t => v.x) (affine p k)
    (fun q => p.x + k * (q - p.x)) (fun a b => aff_max k hk p.x a b) (fun v => rfl) vs
  have hmaxy := foldMax_map (fun v : point_t => v.y) (affine p k)
    (fun q => p.y + k * (q - p.y)) (fun a b => aff_max k hk p.y a b) (fun v => rfl) vs
  simp only [polyFrame, getD_zero_map _ _ h]
  have e1 : (affine p k (vs.getD 0 ⟨0, 0⟩)).x = p.x + k * ((vs.getD 0 ⟨0, 0⟩).x - p.x) := rfl
  have e2 : (affine p k (vs.getD 0 ⟨0, 0⟩)).y = p.y + k * ((vs.getD 0 ⟨0, 0⟩).y - p.y) := rfl
  rw [e1, e2, hminx, hminy, hmaxx, hmaxy]
  simp only [rectangle_t.mk.injEq, point_t.mk.injEq, affine]
  refine ⟨by ring, by ring, by ring, by ring⟩

/-- The shape has a nonempty vertex list when it is a Polygon (the Polygon
frame loop reads verts[0]). -/
def polyNE : Shape → Prop
  | .Polygon vs _ => vs ≠ []
  | _ => True

lemma WF_polyNE (s : Shape) (h : WF s) : polyNE s := by
  cases s with
  | Polygon vs c =>
    simp only [WF] at h
    simp only [polyNE]
    intro hnil
    subst hnil
    simp at h
  | Rectangle a b c => trivial
  | Bubble r c a => trivial

lemma ssbp_rect (k : ℚ) (p : point_t) (a b : ℚ) (c : point_t) :
    scaleShapeByPoint k p (.Rectangle a b c) = .Rectangle (a * k) (b * k) (affine p k c) := by
  simp only [scaleShapeByPoint, getFrameRect, movePoint, moveDelta, scaleS, affine,
    Shape.Rectangle.injEq, point_t.mk.injEq]

lemma ssbp_bubble (k : ℚ) (p : point_t) (r : ℚ) (c a : point_t) :
    scaleShapeByPoint k p (.Bubble r c a) = .Bubble (r * k) (affine p k c) (affine p k a) := by
  simp only [scaleShapeByPoint, getFrameRect, movePoint, moveDelta, scaleS, affine,
    Shape.Bubble.injEq, point_t.mk.injEq]
  and_intros <;> first
  | trivial
  | ring

lemma ssbp_poly (k : ℚ) (p : point_t) (vs : List point_t) (c : point_t) (h : vs ≠ []) :
    scaleShapeByPoint k p (.Polygon vs c) = .Polygon (vs.map (affine p k)) (affine p k c) := by
  have hF := polyFrame_translate (p.x - c.x) (p.y - c.y) vs h
  simp only [scaleShapeByPoint, getFrameRect, movePoint, moveDelta, scaleS, hF,
    List.map_map, Shape.Polygon.injEq]
  constructor
  · apply List.map_congr_left
    intro v _
    simp only [Function.comp_apply, affine, translate, point_t.mk.injEq]
    constructor <;> ring
  · simp only [affine, point_t.mk.injEq]
    constructor <;> ring

lemma frame_ssbp (k : ℚ) (hk : 0 < k) (p : point_t) (s : Shape) (hs : polyNE s) :
    getFrameRect (scaleShapeByPoint k p s) =
      ⟨k * (getFrameRect s).width, k * (getFrameRect s).height,
        affine p k (getFrameRect s).pos⟩ := by
  cases s with
  | Rectangle a b c =>
    rw [ssbp_rect]
    simp only [getFrameRect, rectangle_t.mk.injEq]
    and_intros <;> first
    | trivial
    | ring
  | Polygon vs c =>
    rw [ssbp_poly k p vs c hs]
    simp only [getFrameRect]
    exact polyFrame_affine p k hk.le vs hs
  | Bubble r c a =>
    rw [ssbp_bubble]
    simp only [getFrameRect, rectangle_t.mk.injEq]
    and_intros <;> first
    | trivial
    | ring

lemma anchorOf_ssbp (k : ℚ) (p : point_t) (s : Shape) :
    anchorOf (scaleShapeByPoint k p s) = (anchorOf s).map (affine p k) := by
  cases s with
  | Rectangle a b c => rw [ssbp_rect]; rfl
  | Polygon vs c => rfl
  | Bubble r c a => rw [ssbp_bubble]; rfl

lemma refPoint_ssbp (k : ℚ) (p : point_t) (s : Shape) (hs : polyNE s) :
    refPoint (scaleShapeByPoint k p s) = affine p k (refPoint s) := by
  cases s with
  | Rectangle a b c => rw [ssbp_rect]; rfl
  | Polygon vs c => rw [ssbp_poly k p vs c hs]; rfl
  | Bubble r c a => rw [ssbp_bubble]; rfl

/-- Claim C1: for every non-empty collection of validly-formed shapes, k > 0 and
pivot p, scaleByPoint succeeds and transforms each shape so that its
frame-rectangle position becomes p + k * (old position - p), its frame width
and height are multiplied by k, each shape's reference point (center for
Rectangle/Polygon, anchor for Bubble) maps to p + k * (old - p), and in
particular the Bubble anchor maps to p + k * (old anchor - p). -/
theorem scaleByPoint_scales_about_common_pivot (shapes : List Shape) (k : ℚ) (p : point_t)
    (hk : 0 < k) (_hne : shapes ≠ []) (hwf : ∀ s ∈ shapes, WF s) :
    scaleByPoint shapes k p = Except.ok (shapes.map (scaleShapeByPoint k p)) ∧
    ∀ s ∈ shapes,
      (getFrameRect (scaleShapeByPoint k p s)).pos = affine p k (getFrameRect s).pos ∧
      (getFrameRect (scaleShapeByPoint k p s)).width = k * (getFrameRect s).width ∧
      (getFrameRect (scaleShapeByPoint k p s)).height = k * (getFrameRect s).height ∧
      refPoint (scaleShapeByPoint k p s) = affine p k (refPoint s) ∧
      anchorOf (scaleShapeByPoint k p s) = (anchorOf s).map (affine p k) := by
  constructor
  · rw [scaleByPoint, if_neg (not_le.mpr hk)]
  · intro s hs
    have hne' := WF_polyNE s (hwf s hs)
    have hfr := frame_ssbp k hk p s hne'
    refine ⟨?_, ?_, ?_, refPoint_ssbp k p s hne', anchorOf_ssbp k p s⟩ <;>
      rw [hfr]

/-- Witness for C1 at a concrete one-shape collection. -/
theorem scaleByPoint_scales_about_common_pivot_witness :
    scaleByPoint [Shape.Rectangle 5 6 ⟨1, 2⟩] 2 ⟨0, 0⟩
      = Except.ok ([Shape.Rectangle 5 6 ⟨1, 2⟩].map (scaleShapeByPoint 2 ⟨0, 0⟩)) ∧
    ∀ s ∈ [Shape.Rectangle 5 6 ⟨1, 2⟩],
      (getFrameRect (scaleShapeByPoint 2 ⟨0, 0⟩ s)).pos
          = affine ⟨0, 0⟩ 2 (getFrameRect s).pos ∧
      (getFrameRect (scaleShapeByPoint 2 ⟨0, 0⟩ s)).width = 2 * (getFrameRect s).width ∧
      (getFrameRect (scaleShapeByPoint 2 ⟨0, 0⟩ s)).height = 2 * (getFrameRect s).height ∧
      refPoint (scaleShapeByPoint 2 ⟨0, 0⟩ s) = affine ⟨0, 0⟩ 2 (refPoint s) ∧
      anchorOf (scaleShapeByPoint 2 ⟨0, 0⟩ s) = (anchorOf s).map (affine ⟨0, 0⟩ 2) :=
  scaleByPoint_scales_about_common_pivot [Shape.Rectangle 5 6 ⟨1, 2⟩] 2 ⟨0, 0⟩
    (by norm_num) (by simp)
    (by intro s hs; rw [List.mem_singleton] at hs; subst hs; exact ⟨by norm_num, by norm_num⟩)

/-- Claim C2: scaleByPoint raises InvalidArgument for k ≤ 0; the guard runs
before the per-shape loop, so a rejected call returns the error and no
transformed collection (in this pure embedding the input shapes are untouched);
for k > 0 no error is raised. -/
theorem scaleByPoint_rejects_nonpositive_k (shapes : List Shape) (k : ℚ) (p : point_t) :
    (k ≤ 0 → scaleByPoint shapes k p = Except.error "k must be positive") ∧
    (0 < k → scaleByPoint shapes k p = Except.ok (shapes.map (scaleShapeByPoint k p))) := by
  constructor
  · intro h
    rw [scaleByPoint, if_pos h]
  · intro h
    rw [scaleByPoint, if_neg (not_le.mpr h)]

/-- Witness for C2: a rejected call with k = 0 and an accepted call with k = 1. -/
theorem scaleByPoint_rejects_nonpositive_k_witness :
    scaleByPoint [Shape.Rectangle 5 6 ⟨1, 2⟩] 0 ⟨3, 4⟩ = Except.error "k must be positive" ∧
    scaleByPoint [Shape.Rectangle 5 6 ⟨1, 2⟩] 1 ⟨3, 4⟩
      = Except.ok ([Shape.Rectangle 5 6 ⟨1, 2⟩].map (scaleShapeByPoint 1 ⟨3, 4⟩)) :=
  ⟨(scaleByPoint_rejects_nonpositive_k [Shape.Rectangle 5 6 ⟨1, 2⟩] 0 ⟨3, 4⟩).1 le_rfl,
   (scaleByPoint_rejects_nonpositive_k [Shape.Rectangle 5 6 ⟨1, 2⟩] 1 ⟨3, 4⟩).2 one_pos⟩

/-- Claim C5: for every shape and k > 0, scaling multiplies the area by k^2. -/
theorem scale_multiplies_area_by_k_squared (pi : ℚ) (s : Shape) (k : ℚ) (_hk : 0 < k) :
    getArea pi (scaleS s k) = k ^ 2 * getArea pi s := by
  cases s with
  | Rectangle a b c =>
    simp only [scaleS, getArea]
    ring
  | Polygon vs c =>
    simp only [scaleS, getArea, signedArea_affine]
    rw [abs_mul, abs_of_nonneg (sq_nonneg k)]
  | Bubble r c a =>
    simp only [scaleS, getArea]
    ring

/-- Witness for C5 at a concrete rectangle and k = 2. -/
theorem scale_multiplies_area_by_k_squared_witness :
    getArea 3 (scaleS (Shape.Rectangle 5 6 ⟨1, 2⟩) 2)
      = 2 ^ 2 * getArea 3 (Shape.Rectangle 5 6 ⟨1, 2⟩) :=
  scale_multiplies_area_by_k_squared 3 (Shape.Rectangle 5 6 ⟨1, 2⟩) 2 (by norm_num)

/-- Claim C4: move(p) sets the reference point (center for Rectangle/Polygon,
anchor for Bubble) to p and is a pure translation: area and frame width/height
unchanged, frame position shifted by the same delta as the reference point;
move(dx, dy) shifts the frame position by exactly (dx, dy), keeps the frame
size, and leaves the area unchanged. -/
theorem move_is_pure_translation (pi : ℚ) (s : Shape) (p : point_t) (dx dy : ℚ)
    (hs : WF s) :
    refPoint (movePoint s p) = p ∧
    getArea pi (movePoint s p) = getArea pi s ∧
    (getFrameRect (movePoint s p)).width = (getFrameRect s).width ∧
    (getFrameRect (movePoint s p)).height = (getFrameRect s).height ∧
    (getFrameRect (movePoint s p)).pos.x = (getFrameRect s).pos.x + (p.x - (refPoint s).x) ∧
    (getFrameRect (movePoint s p)).pos.y = (getFrameRect s).pos.y + (p.y - (refPoint s).y) ∧
    (getFrameRect (moveDelta s dx dy)).pos.x = (getFrameRect s).pos.x + dx ∧
    (getFrameRect (moveDelta s dx dy)).pos.y = (getFrameRect s).pos.y + dy ∧
    (getFrameRect (moveDelta s dx dy)).width = (getFrameRect s).width ∧
    (getFrameRect (moveDelta s dx dy)).height = (getFrameRect s).height ∧
    getArea pi (moveDelta s dx dy) = getArea pi s := by
  obtain ⟨px, py⟩ := p
  cases s with
  | Rectangle a b c =>
    simp only [movePoint, moveDelta, refPoint, getArea, getFrameRect, point_t.mk.injEq]
    and_intros <;> first
    | trivial
    | ring
  | Polygon vs c =>
    have hvs : vs ≠ [] := by
      simp only [WF] at hs
      intro hnil
      subst hnil
      simp at hs
    have h1 := polyFrame_translate (px - c.x) (py - c.y) vs hvs
    have h2 := polyFrame_translate dx dy vs hvs
    simp only [movePoint, moveDelta, refPoint, getArea, getFrameRect, h1, h2,
      signedArea_translate, point_t.mk.injEq]
    and_intros <;> first
    | trivial
    | ring
  | Bubble r c a =>
    simp only [movePoint, moveDelta, refPoint, getArea, getFrameRect, point_t.mk.injEq]
    and_intros <;> first
    | trivial
    | ring

/-- Witness for C4 at a concrete rectangle. -/
theorem move_is_pure_translation_witness :
    refPoint (movePoint (Shape.Rectangle 5 6 ⟨1, 2⟩) ⟨3, 4⟩) = ⟨3, 4⟩ ∧
    getArea 3 (movePoint (Shape.Rectangle 5 6 ⟨1, 2⟩) ⟨3, 4⟩)
      = getArea 3 (Shape.Rectangle 5 6 ⟨1, 2⟩) ∧
    (getFrameRect (movePoint (Shape.Rectangle 5 6 ⟨1, 2⟩) ⟨3, 4⟩)).width
      = (getFrameRect (Shape.Rectangle 5 6 ⟨1, 2⟩)).width ∧
    (getFrameRect (movePoint (Shape.Rectangle 5 6 ⟨1, 2⟩) ⟨3, 4⟩)).height
      = (getFrameRect (Shape.Rectangle 5 6 ⟨1, 2⟩)).height ∧
    (getFrameRect (movePoint (Shape.Rectangle 5 6 ⟨1, 2⟩) ⟨3, 4⟩)).pos.x
      = (getFrameRect (Shape.Rectangle 5 6 ⟨1, 2⟩)).pos.x
        + ((3 : ℚ) - (refPoint (Shape.Rectangle 5 6 ⟨1, 2⟩)).x) ∧
    (getFrameRect (movePoint (Shape.Rectangle 5 6 ⟨1, 2⟩) ⟨3, 4⟩)).pos.y
      = (getFrameRect (Shape.Rectangle 5 6 ⟨1, 2⟩)).pos.y
        + ((4 : ℚ) - (refPoint (Shape.Rectangle 5 6 ⟨1, 2⟩)).y) ∧
    (getFrameRect (moveDelta (Shape.Rectangle 5 6 ⟨1, 2⟩) 1 2)).pos.x
      = (getFrameRect (Shape.Rectangle 5 6 ⟨1, 2⟩)).pos.x + 1 ∧
    (getFrameRect (moveDelta (Shape.Rectangle 5 6 ⟨1, 2⟩) 1 2)).pos.y
      = (getFrameRect (Shape.Rectangle 5 6 ⟨1, 2⟩)).pos.y + 2 ∧
    (getFrameRect (moveDelta (Shape.Rectangle 5 6 ⟨1, 2⟩) 1 2)).width
      = (getFrameRect (Shape.Rectangle 5 6 ⟨1, 2⟩)).width ∧
    (getFrameRect (moveDelta (Shape.Rectangle 5 6 ⟨1, 2⟩) 1 2)).height
      = (getFrameRect (Shape.Rectangle 5 6 ⟨1, 2⟩)).height ∧
    getArea 3 (moveDelta (Shape.Rectangle 5 6 ⟨1, 2⟩) 1 2)
      = getArea 3 (Shape.Rectangle 5 6 ⟨1, 2⟩) :=
  move_is_pure_translation 3 (Shape.Rectangle 5 6 ⟨1, 2⟩) ⟨3, 4⟩ 1 2
    ⟨by norm_num, by norm_num⟩

/-- Weak invariant sufficient for non-negative area: the rectangle side product
is non-negative (both sides flip sign together under scaling). -/
def areaInv : Shape → Prop
  | .Rectangle a b _ => 0 ≤ a * b
  | _ => True

lemma WF_areaInv (s : Shape) (h : WF s) : areaInv s := by
  cases s with
  | Rectangle a b c =>
    exact mul_nonneg h.1.le h.2.le
  | Polygon vs c => trivial
  | Bubble r c a => trivial

lemma areaInv_step (s : Shape) (m : Mutation) (h : areaInv s) : areaInv (applyMut s m) := by
  cases m with
  | moveTo p =>
    cases s with
    | Rectangle a b c => exact h
    | Polygon vs c => trivial
    | Bubble r c a => trivial
  | moveBy dx dy =>
    cases s with
    | Rectangle a b c => exact h
    | Polygon vs c => trivial
    | Bubble r c a => trivial
  | scale k =>
    cases s with
    | Rectangle a b c =>
      simp only [applyMut, scaleS, areaInv] at h ⊢
      nlinarith [sq_nonneg k]
    | Polygon vs c => trivial
    | Bubble r c a => trivial

lemma areaInv_muts (s : Shape) (ms : List Mutation) (h : areaInv s) :
    areaInv (applyMuts s ms) := by
  induction ms generalizing s with
  | nil => exact h
  | cons m ms ih => exact ih (applyMut s m) (areaInv_step s m h)

lemma WF_step (s : Shape) (m : Mutation) (h : WF s) (hm : posScale m) :
    WF (applyMut s m) := by
  cases m with
  | moveTo p =>
    cases s with
    | Rectangle a b c => exact h
    | Polygon vs c => simpa [applyMut, movePoint, moveDelta, WF] using h
    | Bubble r c a => exact h
  | moveBy dx dy =>
    cases s with
    | Rectangle a b c => exact h
    | Polygon vs c => simpa [applyMut, moveDelta, WF] using h
    | Bubble r c a => exact h
  | scale k =>
    cases s with
    | Rectangle a b c => exact ⟨mul_pos h.1 hm, mul_pos h.2 hm⟩
    | Polygon vs c => simpa [applyMut, scaleS, WF] using h
    | Bubble r c a => exact mul_pos h hm

lemma WF_muts (s : Shape) (ms : List Mutation) (h : WF s)
    (hms : ∀ m ∈ ms, posScale m) : WF (applyMuts s ms) := by
  induction ms generalizing s with
  | nil => exact h
  | cons m ms ih =>
    exact ih (applyMut s m) (WF_step s m h (hms m (List.mem_cons_self m ms)))
      fun m' hm' => hms m' (List.mem_cons_of_mem m hm')

lemma areaInv_area_nonneg (pi : ℚ) (hpi : 0 ≤ pi) (s : Shape) (h : areaInv s) :
    0 ≤ getArea pi s := by
  cases s with
  | Rectangle a b c => exact h
  | Polygon vs c => exact abs_nonneg _
  | Bubble r c a =>
    show 0 ≤ pi * r * r
    rw [mul_assoc]
    exact mul_nonneg hpi (mul_self_nonneg r)

lemma WF_frame_nonneg (s : Shape) (h : WF s) :
    0 ≤ (getFrameRect s).width ∧ 0 ≤ (getFrameRect s).height := by
  cases s with
  | Rectangle a b c => exact ⟨h.1.le, h.2.le⟩
  | Polygon vs c =>
    simp only [getFrameRect, polyFrame]
    constructor <;> exact sub_nonneg.mpr (foldMin_le_foldMax _ vs _)
  | Bubble r c a =>
    have hr : 0 < r := h
    simp only [getFrameRect]
    constructor <;> linarith [hr]

lemma validCtor_WF (s : Shape) (h : validCtor s) : WF s := by
  rcases h with ⟨a, b, o, h⟩ | ⟨pts, h⟩ | ⟨r, o, a, h⟩
  · rw [mkRectangle] at h
    split_ifs at h with hc
    rw [Except.ok.injEq] at h
    subst h
    push_neg at hc
    exact ⟨hc.1, hc.2⟩
  · rw [mkPolygon] at h
    split_ifs at h with hc
    rw [Except.ok.injEq] at h
    subst h
    exact not_lt.mp hc
  · rw [mkBubble] at h
    split_ifs at h with h1 h2 h3
    rw [Except.ok.injEq] at h
    subst h
    exact not_le.mp h3

/-- The claim C3 as stated is false: a negative scale factor produces a
negative frame width on a validly constructed Rectangle. -/
theorem nonzero_scale_breaks_frame_invariant :
    mkRectangle 5 6 ⟨1, 2⟩ = Except.ok (Shape.Rectangle 5 6 ⟨1, 2⟩) ∧
    (-1 : ℚ) ≠ 0 ∧
    (getFrameRect (applyMuts (Shape.Rectangle 5 6 ⟨1, 2⟩) [Mutation.scale (-1)])).width
      = -5 ∧
    ¬(0 ≤ (getFrameRect (applyMuts (Shape.Rectangle 5 6 ⟨1, 2⟩)
        [Mutation.scale (-1)])).width) := by
  refine ⟨by norm_num [mkRectangle], by norm_num, ?_, ?_⟩ <;>
    norm_num [applyMuts, applyMut, scaleS, getFrameRect]

/-- Claim C3 amended: for every validly constructed shape and any sequence of
moveTo/moveBy/scale mutations, the area stays non-negative (for any scale
factors), and the frame width and height stay non-negative provided every
scale factor is positive. -/
theorem shape_invariants_after_mutations (pi : ℚ) (hpi : 0 ≤ pi) (s : Shape)
    (hs : validCtor s) (ms : List Mutation) :
    0 ≤ getArea pi (applyMuts s ms) ∧
    ((∀ m ∈ ms, posScale m) →
      0 ≤ (getFrameRect (applyMuts s ms)).width ∧
      0 ≤ (getFrameRect (applyMuts s ms)).height) := by
  have hwf := validCtor_WF s hs
  constructor
  · exact areaInv_area_nonneg pi hpi _ (areaInv_muts s ms (WF_areaInv s hwf))
  · intro hms
    exact WF_frame_nonneg _ (WF_muts s ms hwf hms)

/-- Witness for the amended C3 at a concrete rectangle and mutation list. -/
theorem shape_invariants_after_mutations_witness :
    0 ≤ getArea 3 (applyMuts (Shape.Rectangle 5 6 ⟨1, 2⟩)
        [Mutation.moveTo ⟨3, 4⟩, Mutation.scale 2]) ∧
    0 ≤ (getFrameRect (applyMuts (Shape.Rectangle 5 6 ⟨1, 2⟩)
        [Mutation.moveTo ⟨3, 4⟩, Mutation.scale 2])).width ∧
    0 ≤ (getFrameRect (applyMuts (Shape.Rectangle 5 6 ⟨1, 2⟩)
        [Mutation.moveTo ⟨3, 4⟩, Mutation.scale 2])).height := by
  have h := shape_invariants_after_mutations 3 (by norm_num) (Shape.Rectangle 5 6 ⟨1, 2⟩)
    (Or.inl ⟨5, 6, ⟨1, 2⟩, by norm_num [mkRectangle]⟩)
    [Mutation.moveTo ⟨3, 4⟩, Mutation.scale 2]
  have h2 := h.2 (by
    intro m hm
    rcases List.mem_cons.mp hm with h' | h'
    · subst h'
      trivial
    · rw [List.mem_singleton] at h'
      subst h'
      show (0 : ℚ) < 2
      norm_num)
  exact ⟨h.1, h2.1, h2.2⟩

/-- Claim C6: Bubble construction fails iff squared distance(center, anchor)
exceeds radius², or center equals anchor, or radius ≤ 0; the checks run in
source order [containment, equality, positivity], each with its own message;
Bubble(10, (0,0), (2,2)) succeeds, Bubble(1, (0,0), (2,2)) fails, and an
anchor exactly on the boundary is accepted (given a positive radius). -/
theorem bubble_construction_validation (r : ℚ) (o a : point_t) :
    ((∃ e, mkBubble r o a = Except.error e) ↔
      (r * r < (o.x - a.x) * (o.x - a.x) + (o.y - a.y) * (o.y - a.y) ∨ o = a ∨ r ≤ 0)) ∧
    (r * r < (o.x - a.x) * (o.x - a.x) + (o.y - a.y) * (o.y - a.y) →
      mkBubble r o a = Except.error "the anchor must be inside the circle") ∧
    ((o.x - a.x) * (o.x - a.x) + (o.y - a.y) * (o.y - a.y) ≤ r * r → o = a →
      mkBubble r o a = Except.error "the anchor must not be equal to the center") ∧
    ((o.x - a.x) * (o.x - a.x) + (o.y - a.y) * (o.y - a.y) ≤ r * r → o ≠ a → r ≤ 0 →
      mkBubble r o a = Except.error "the radius must be greater than 0") ∧
    ((o.x - a.x) * (o.x - a.x) + (o.y - a.y) * (o.y - a.y) = r * r → 0 < r →
      mkBubble r o a = Except.ok (Shape.Bubble r o a)) ∧
    mkBubble 10 ⟨0, 0⟩ ⟨2, 2⟩ = Except.ok (Shape.Bubble 10 ⟨0, 0⟩ ⟨2, 2⟩) ∧
    mkBubble 1 ⟨0, 0⟩ ⟨2, 2⟩ = Except.error "the anchor must be inside the circle" := by
  have hpt : (o = a) ↔ (o.x = a.x ∧ o.y = a.y) := by
    cases o
    cases a
    simp [point_t.mk.injEq]
  have herr1 : r * r < (o.x - a.x) * (o.x - a.x) + (o.y - a.y) * (o.y - a.y) →
      mkBubble r o a = Except.error "the anchor must be inside the circle" := by
    intro h
    rw [mkBubble, if_pos h]
  have herr2 : (o.x - a.x) * (o.x - a.x) + (o.y - a.y) * (o.y - a.y) ≤ r * r → o = a →
      mkBubble r o a = Except.error "the anchor must not be equal to the center" := by
    intro hle heq
    rw [mkBubble, if_neg (not_lt.mpr hle), if_pos (hpt.mp heq)]
  have herr3 : (o.x - a.x) * (o.x - a.x) + (o.y - a.y) * (o.y - a.y) ≤ r * r → o ≠ a →
      r ≤ 0 → mkBubble r o a = Except.error "the radius must be greater than 0" := by
    intro hle hne hr
    rw [mkBubble, if_neg (not_lt.mpr hle), if_neg fun hc => hne (hpt.mpr hc), if_pos hr]
  have hok : (o.x - a.x) * (o.x - a.x) + (o.y - a.y) * (o.y - a.y) ≤ r * r → o ≠ a →
      0 < r → mkBubble r o a = Except.ok (Shape.Bubble r o a) := by
    intro hle hne hr
    rw [mkBubble, if_neg (not_lt.mpr hle), if_neg fun hc => hne (hpt.mpr hc),
      if_neg (not_le.mpr hr)]
  refine ⟨⟨?_, ?_⟩, herr1, herr2, herr3, ?_, by norm_num [mkBubble], by norm_num [mkBubble]⟩
  · rintro ⟨e, he⟩
    by_contra hn
    rw [not_or, not_or] at hn
    obtain ⟨h1, h2, h3⟩ := hn
    rw [hok (not_lt.mp h1) h2 (not_le.mp h3)] at he
    exact Except.noConfusion he
  · intro h
    by_cases h1 : r * r < (o.x - a.x) * (o.x - a.x) + (o.y - a.y) * (o.y - a.y)
    · exact ⟨_, herr1 h1⟩
    · have hle := not_lt.mp h1
      by_cases h2 : o = a
      · exact ⟨_, herr2 hle h2⟩
      · rcases h with hd | heq | hr
        · exact absurd hd h1
        · exact absurd heq h2
        · exact ⟨_, herr3 hle h2 hr⟩
  · intro heq hr
    have hne : o ≠ a := by
      intro hc
      rw [hc] at heq
      have h0 : (a.x - a.x) * (a.x - a.x) + (a.y - a.y) * (a.y - a.y) = 0 := by ring
      nlinarith [mul_pos hr hr]
    exact hok heq.le hne hr

/-- Witness for C6: the equality check fires (with its own message) when the
anchor coincides with the center inside the circle. -/
theorem bubble_construction_validation_witness :
    mkBubble 2 ⟨0, 0⟩ ⟨0, 0⟩ = Except.error "the anchor must not be equal to the center" :=
  (bubble_construction_validation 2 ⟨0, 0⟩ ⟨0, 0⟩).2.2.1 (by norm_num) rfl

/-- Claim C7: Polygon area is the absolute value of the shoelace signed area
0.5 * sum of (x_i * y_{i+1} - y_i * x_{i+1}) with indices modulo the count;
for the unit square the area is 1 and the centroid cached as the center at
construction equals (1/2, 1/2). -/
theorem polygon_area_is_shoelace :
    (∀ (pi : ℚ) (vs : List point_t) (c : point_t),
      getArea pi (Shape.Polygon vs c)
        = |(∑ i ∈ Finset.range vs.length,
            ((vs.getD i ⟨0, 0⟩).x * (vs.getD ((i + 1) % vs.length) ⟨0, 0⟩).y
              - (vs.getD i ⟨0, 0⟩).y * (vs.getD ((i + 1) % vs.length) ⟨0, 0⟩).x))
            * (1 / 2)|) ∧
    getArea 3 (Shape.Polygon [⟨0, 0⟩, ⟨1, 0⟩, ⟨1, 1⟩, ⟨0, 1⟩] ⟨1 / 2, 1 / 2⟩) = 1 ∧
    getCentroid [⟨0, 0⟩, ⟨1, 0⟩, ⟨1, 1⟩, ⟨0, 1⟩] = ⟨1 / 2, 1 / 2⟩ ∧
    mkPolygon [⟨0, 0⟩, ⟨1, 0⟩, ⟨1, 1⟩, ⟨0, 1⟩]
      = Except.ok (Shape.Polygon [⟨0, 0⟩, ⟨1, 0⟩, ⟨1, 1⟩, ⟨0, 1⟩] ⟨1 / 2, 1 / 2⟩) := by
  refine ⟨fun pi vs c => rfl, ?_, ?_, ?_⟩
  · norm_num [getArea, getSignedArea, cross, Finset.sum_range_succ]
  · norm_num [getCentroid, getSignedArea, cross, Finset.sum_range_succ]
  · norm_num [mkPolygon, getCentroid, getSignedArea, cross, Finset.sum_range_succ]

/-- Claim C9: Polygon construction fails iff the vertex count is below 3; a
collinear triple is accepted, its signed area is 0, and the divisor
6 * signedArea used (unguarded) by getCentroid is therefore 0 there. -/
theorem polygon_ctor_count_and_degenerate_centroid :
    (∀ pts : List point_t, (∃ e, mkPolygon pts = Except.error e) ↔ pts.length < 3) ∧
    mkPolygon [⟨0, 0⟩, ⟨1, 1⟩, ⟨2, 2⟩]
      = Except.ok (Shape.Polygon [⟨0, 0⟩, ⟨1, 1⟩, ⟨2, 2⟩]
          (getCentroid [⟨0, 0⟩, ⟨1, 1⟩, ⟨2, 2⟩])) ∧
    getSignedArea [⟨0, 0⟩, ⟨1, 1⟩, ⟨2, 2⟩] = 0 ∧
    6 * getSignedArea [⟨0, 0⟩, ⟨1, 1⟩, ⟨2, 2⟩] = 0 := by
  refine ⟨?_, ?_, ?_, ?_⟩
  · intro pts
    rw [mkPolygon]
    split_ifs with hc
    · exact ⟨fun _ => hc, fun _ => ⟨_, rfl⟩⟩
    · constructor
      · rintro ⟨e, he⟩
        exact he.elim
      · intro h
        exact absurd h hc
  · rw [mkPolygon, if_neg (by norm_num)]
  · norm_num [getSignedArea, cross, Finset.sum_range_succ]
  · norm_num [getSignedArea, cross, Finset.sum_range_succ]

lemma totalFrame_left (s : Shape) (rest : List Shape) :
    leftR (getTotalFrameRect (s :: rest)) =
      foldMin (fun t => (getFrameRect t).pos.x - (getFrameRect t).width / 2) rest
        (leftR (getFrameRect s)) := by
  simp only [getTotalFrameRect, leftR]
  ring

lemma totalFrame_bot (s : Shape) (rest : List Shape) :
    botR (getTotalFrameRect (s :: rest)) =
      foldMin (fun t => (getFrameRect t).pos.y - (getFrameRect t).height / 2) rest
        (botR (getFrameRect s)) := by
  simp only [getTotalFrameRect, botR]
  ring

lemma totalFrame_right (s : Shape) (rest : List Shape) :
    rightR (getTotalFrameRect (s :: rest)) =
      foldMax (fun t => (getFrameRect t).pos.x + (getFrameRect t).width / 2) rest
        (rightR (getFrameRect s)) := by
  simp only [getTotalFrameRect, rightR]
  rw [show (getFrameRect s).pos.x - (getFrameRect s).width / 2 + (getFrameRect s).width
      = (getFrameRect s).pos.x + (getFrameRect s).width / 2 from by ring]
  ring

lemma totalFrame_top (s : Shape) (rest : List Shape) :
    topR (getTotalFrameRect (s :: rest)) =
      foldMax (fun t => (getFrameRect t).pos.y + (getFrameRect t).height / 2) rest
        (topR (getFrameRect s)) := by
  simp only [getTotalFrameRect, topR]
  rw [show (getFrameRect s).pos.y - (getFrameRect s).height / 2 + (getFrameRect s).height
      = (getFrameRect s).pos.y + (getFrameRect s).height / 2 from by ring]
  ring

/-- Claim C8: for every non-empty collection (head plus tail, since the
implementation reads the first element unconditionally), getTotalFrameRect is
the minimal axis-aligned box enclosing every shape's frame rectangle, its
position is the box center, and on the two sample rectangles it equals the
exact min/max union. -/
theorem totalFrame_is_minimal_union (s : Shape) (rest : List Shape) :
    (∀ t ∈ s :: rest, encloses (getTotalFrameRect (s :: rest)) (getFrameRect t)) ∧
    (∀ B : rectangle_t, (∀ t ∈ s :: rest, encloses B (getFrameRect t)) →
      encloses B (getTotalFrameRect (s :: rest))) ∧
    (getTotalFrameRect (s :: rest)).pos.x
      = (leftR (getTotalFrameRect (s :: rest)) + rightR (getTotalFrameRect (s :: rest))) / 2 ∧
    (getTotalFrameRect (s :: rest)).pos.y
      = (botR (getTotalFrameRect (s :: rest)) + topR (getTotalFrameRect (s :: rest))) / 2 ∧
    getTotalFrameRect [Shape.Rectangle 5 6 ⟨1, 2⟩, Shape.Rectangle 10 2 ⟨-10, 3⟩]
      = ⟨37 / 2, 6, ⟨-23 / 4, 2⟩⟩ := by
  refine ⟨?_, ?_, ?_, ?_, ?_⟩
  · intro t ht
    refine ⟨?_, ?_, ?_, ?_⟩
    · rw [totalFrame_left]
      rcases List.mem_cons.mp ht with h | h
      · subst h
        exact foldMin_le_init _ rest _
      · exact foldMin_le_mem _ rest _ t h
    · rw [totalFrame_right]
      rcases List.mem_cons.mp ht with h | h
      · subst h
        exact init_le_foldMax _ rest _
      · exact mem_le_foldMax _ rest _ t h
    · rw [totalFrame_bot]
      rcases List.mem_cons.mp ht with h | h
      · subst h
        exact foldMin_le_init _ rest _
      · exact foldMin_le_mem _ rest _ t h
    · rw [totalFrame_top]
      rcases List.mem_cons.mp ht with h | h
      · subst h
        exact init_le_foldMax _ rest _
      · exact mem_le_foldMax _ rest _ t h
  · intro B hB
    refine ⟨?_, ?_, ?_, ?_⟩
    · rw [totalFrame_left]
      exact le_foldMin _ rest _ _ (hB s (List.mem_cons_self s rest)).1
        fun t ht => (hB t (List.mem_cons_of_mem s ht)).1
    · rw [totalFrame_right]
      exact foldMax_le _ rest _ _ (hB s (List.mem_cons_self s rest)).2.1
        fun t ht => (hB t (List.mem_cons_of_mem s ht)).2.1
    · rw [totalFrame_bot]
      exact le_foldMin _ rest _ _ (hB s (List.mem_cons_self s rest)).2.2.1
        fun t ht => (hB t (List.mem_cons_of_mem s ht)).2.2.1
    · rw [totalFrame_top]
      exact foldMax_le _ rest _ _ (hB s (List.mem_cons_self s rest)).2.2.2
        fun t ht => (hB t (List.mem_cons_of_mem s ht)).2.2.2
  · simp only [getTotalFrameRect, leftR, rightR]
    ring
  · simp only [getTotalFrameRect, botR, topR]
    ring
  · norm_num [getTotalFrameRect, getFrameRect, foldMin, foldMax]

/-- Witness for C8: enclosure of the first sample rectangle's frame and the
exact union box for the sample collection. -/
theorem totalFrame_is_minimal_union_witness :
    encloses (getTotalFrameRect [Shape.Rectangle 5 6 ⟨1, 2⟩, Shape.Rectangle 10 2 ⟨-10, 3⟩])
      (getFrameRect (Shape.Rectangle 5 6 ⟨1, 2⟩)) ∧
    getTotalFrameRect [Shape.Rectangle 5 6 ⟨1, 2⟩, Shape.Rectangle 10 2 ⟨-10, 3⟩]
      = ⟨37 / 2, 6, ⟨-23 / 4, 2⟩⟩ :=
  ⟨(totalFrame_is_minimal_union (Shape.Rectangle 5 6 ⟨1, 2⟩)
      [Shape.Rectangle 10 2 ⟨-10, 3⟩]).1 (Shape.Rectangle 5 6 ⟨1, 2⟩)
      (List.mem_cons_self _ _),
   (totalFrame_is_minimal_union (Shape.Rectangle 5 6 ⟨1, 2⟩)
      [Shape.Rectangle 10 2 ⟨-10, 3⟩]).2.2.2.2⟩

lemma BWF_step (s : Shape) (m : Mutation) (h : BWF s) (hm : posScale m) :
    BWF (applyMut s m) := by
  cases s with
  | Rectangle a b c => exact h.elim
  | Polygon vs c => exact h.elim
  | Bubble r c a =>
    obtain ⟨h1, h2, h3⟩ := h
    cases m with
    | moveTo p =>
      refine ⟨?_, ?_, h3⟩
      · show (c.x + (p.x - a.x) - (a.x + (p.x - a.x))) * (c.x + (p.x - a.x) - (a.x + (p.x - a.x)))
          + (c.y + (p.y - a.y) - (a.y + (p.y - a.y))) * (c.y + (p.y - a.y) - (a.y + (p.y - a.y)))
          ≤ r * r
        nlinarith [h1]
      · rintro ⟨e1, e2⟩
        dsimp only at e1 e2
        exact h2 ⟨by linarith [e1], by linarith [e2]⟩
    | moveBy dx dy =>
      refine ⟨?_, ?_, h3⟩
      · show (c.x + dx - (a.x + dx)) * (c.x + dx - (a.x + dx))
          + (c.y + dy - (a.y + dy)) * (c.y + dy - (a.y + dy)) ≤ r * r
        nlinarith [h1]
      · rintro ⟨e1, e2⟩
        dsimp only at e1 e2
        exact h2 ⟨by linarith [e1], by linarith [e2]⟩
    | scale k =>
      have hk : 0 < k := hm
      refine ⟨?_, ?_, mul_pos h3 hk⟩
      · show (a.x + k * (c.x - a.x) - a.x) * (a.x + k * (c.x - a.x) - a.x)
          + (a.y + k * (c.y - a.y) - a.y) * (a.y + k * (c.y - a.y) - a.y) ≤ r * k * (r * k)
        nlinarith [h1, sq_nonneg k, mul_le_mul_of_nonneg_left h1 (mul_self_nonneg k)]
      · rintro ⟨e1, e2⟩
        simp only [affine] at e1 e2
        apply h2
        constructor
        · have hx : k * (c.x - a.x) = 0 := by linarith [e1]
          rcases mul_eq_zero.mp hx with hk0 | hd
          · exact absurd hk0 (ne_of_gt hk)
          · linarith [hd]
        · have hy : k * (c.y - a.y) = 0 := by linarith [e2]
          rcases mul_eq_zero.mp hy with hk0 | hd
          · exact absurd hk0 (ne_of_gt hk)
          · linarith [hd]

lemma BWF_muts (s : Shape) (ms : List Mutation) (h : BWF s)
    (hms : ∀ m ∈ ms, posScale m) : BWF (applyMuts s ms) := by
  induction ms generalizing s with
  | nil => exact h
  | cons m ms ih =>
    exact ih (applyMut s m) (BWF_step s m h (hms m (List.mem_cons_self m ms)))
      fun m' hm' => hms m' (List.mem_cons_of_mem m hm')

/-- Claim C10: for a validly constructed Bubble, any sequence of moves and
positive-factor scalings preserves the constructor invariant: squared
center-anchor distance at most radius², center distinct from anchor, and
positive radius. -/
theorem bubble_invariant_preserved (r : ℚ) (o a : point_t) (s : Shape)
    (h : mkBubble r o a = Except.ok s) (ms : List Mutation)
    (hms : ∀ m ∈ ms, posScale m) : BWF (applyMuts s ms) := by
  rw [mkBubble] at h
  split_ifs at h with h1 h2 h3
  rw [Except.ok.injEq] at h
  subst h
  exact BWF_muts _ ms ⟨not_lt.mp h1, h2, not_le.mp h3⟩ hms

/-- Witness for C10 at the sample bubble with a translation and a scaling. -/
theorem bubble_invariant_preserved_witness :
    BWF (applyMuts (Shape.Bubble 10 ⟨0, 0⟩ ⟨2, 2⟩)
      [Mutation.moveBy 1 1, Mutation.scale 2]) :=
  bubble_invariant_preserved 10 ⟨0, 0⟩ ⟨2, 2⟩ (Shape.Bubble 10 ⟨0, 0⟩ ⟨2, 2⟩)
    (by norm_num [mkBubble]) [Mutation.moveBy 1 1, Mutation.scale 2]
    (by
      intro m hm
      rcases List.mem_cons.mp hm with h' | h'
      · subst h'
        trivial
      · rw [List.mem_singleton] at h'
        subst h'
        show (0 : ℚ) < 2
        norm_num)

end chernov
